import Mathlib

/-!
Verification development for the Doxygen-annotation engine of
`doxy_tags_functions_variables.py`.

The engine is embedded shallowly over `List Char`:

* The three category regular expressions (function, variable, struct) are
  compiled into small item lists and executed by a backtracking matcher
  (`reMatch`) whose alternative ordering mirrors the greedy, leftmost
  semantics of Python's `re` module.  `scanFrom` mirrors `finditer` under
  `re.MULTILINE` (all three patterns are anchored with a leading caret, so
  the scanner only attempts matches at line starts).
* Character classes are the ASCII readings of `\w`, `\s`, `\d`.
* Python string helpers used by the source (`strip`, `splitlines`,
  `split(',')`, `split()`, `in`, `startswith`) are reproduced one by one.
* `param.split()[-1]`, which raises `IndexError` on a whitespace-only
  parameter segment, is modelled with `Option`; the per-file transform is
  therefore `Option`-valued, `none` standing for an escaped exception.
-/

namespace Pydoxy

/-- ASCII reading of Python's whitespace class (`\s`, `str.strip`). -/
def isPySpace (c : Char) : Bool :=
  c = ' ' || c = '\t' || c = '\n' || c = '\r' || c = '\x0b' || c = '\x0c'

/-- ASCII reading of Python's word class `\w`. -/
def isWordChar (c : Char) : Bool :=
  c.isAlpha || c.isDigit || c = '_'

/-- The character class `[\w\s\*&:<>,]` used for the declared-type capture. -/
def isTypeChar (c : Char) : Bool :=
  isWordChar c || isPySpace c || c = '*' || c = '&' || c = ':' || c = '<' || c = '>' || c = ','

/-- Python's substring test `needle in hay`. -/
def containsSub (hay needle : List Char) : Bool :=
  needle.isPrefixOf hay ||
    match hay with
    | [] => false
    | _ :: t => containsSub t needle

/-- Python's `str.strip()` (no argument): drop whitespace from both ends. -/
def pstrip (s : List Char) : List Char :=
  ((s.dropWhile isPySpace).reverse.dropWhile isPySpace).reverse

/-- Helper for `splitlines`: accumulate the current line (reversed). -/
def splitlinesAux : List Char → List Char → List (List Char)
  | [], acc => if acc.isEmpty then [] else [acc.reverse]
  | '\r' :: '\n' :: t, acc => acc.reverse :: splitlinesAux t []
  | '\n' :: t, acc => acc.reverse :: splitlinesAux t []
  | '\r' :: t, acc => acc.reverse :: splitlinesAux t []
  | c :: t, acc => splitlinesAux t (c :: acc)

/-- Python's `str.splitlines()` for the newline terminators occurring in the
    repository's data (`\n`, `\r`, `\r\n`): no trailing empty line is
    produced for a terminal newline. -/
def splitlines (s : List Char) : List (List Char) :=
  splitlinesAux s []

/-- Python's `str.split(sep)` for a one-character separator: empty pieces
    are kept, as in `''.split(',') == ['']`. -/
def splitSep (sep : Char) : List Char → List Char → List (List Char)
  | [], acc => [acc.reverse]
  | c :: t, acc =>
    if c = sep then acc.reverse :: splitSep sep t []
    else splitSep sep t (c :: acc)

/-- Python's `str.split()` (no argument): split on whitespace runs,
    dropping empty pieces. -/
def splitWsAux : List Char → List Char → List (List Char)
  | [], acc => if acc.isEmpty then [] else [acc.reverse]
  | c :: t, acc =>
    if isPySpace c then
      if acc.isEmpty then splitWsAux t []
      else acc.reverse :: splitWsAux t []
    else splitWsAux t (c :: acc)

/-- Python's `str.split()` entry point. -/
def splitWs (s : List Char) : List (List Char) :=
  splitWsAux s []

/-!  A miniature backtracking regular-expression engine, sufficient for the
four patterns of the source file.  An item list is matched left to right;
`star` is greedy with backtracking (longest first), `opt` is a greedy
option, `gopen`/`gclose` delimit a numbered capturing group. -/

/-- One compiled regular-expression item. -/
inductive RItem where
  | lit (c : Char)
  | cls (p : Char → Bool)
  | star (p : Char → Bool)
  | opt (sub : List RItem)
  | gopen (n : Nat)
  | gclose (n : Nat)

/-- Backtracking matcher.  `s` is the remaining input, `i` the absolute
    offset of `s` in the scanned buffer, `st` the stack of open groups,
    `caps` the completed captures `(group, start, stop)`.  Returns the end
    offset and captures of the first (greedy, Python-preference) match, or
    `none`.

    The recursion is driven by a fuel counter so that the definition is
    structural and hence evaluates inside the kernel.  Every recursive
    call strictly decreases the pair (length of `s`, weight of the item
    list) lexicographically, where the weight of a list counts items and
    an `opt` counts as two plus the weight of its body; so a chain of
    calls is never longer than `(s.length + 1) * (weight + 1)`.  The four
    patterns compiled in this file all have weight below 63, hence fuel
    `(s.length + 1) * 64` (supplied by `reFuel` at every use) can never be
    exhausted and the `none` of the fuel case is unreachable. -/
def reMatch : Nat → List RItem → List Char → Nat → List (Nat × Nat) →
    List (Nat × Nat × Nat) → Option (Nat × List (Nat × Nat × Nat))
  | 0, _, _, _, _, _ => none
  | _ + 1, [], _, i, _, caps => some (i, caps)
  | fuel + 1, .lit c :: rest, s, i, st, caps =>
    match s with
    | c1 :: t => if c1 = c then reMatch fuel rest t (i + 1) st caps else none
    | [] => none
  | fuel + 1, .cls p :: rest, s, i, st, caps =>
    match s with
    | c1 :: t => if p c1 then reMatch fuel rest t (i + 1) st caps else none
    | [] => none
  | fuel + 1, .star p :: rest, s, i, st, caps =>
    match s with
    | c1 :: t =>
      if p c1 then
        match reMatch fuel (.star p :: rest) t (i + 1) st caps with
        | some r => some r
        | none => reMatch fuel rest (c1 :: t) i st caps
      else reMatch fuel rest (c1 :: t) i st caps
    | [] => reMatch fuel rest [] i st caps
  | fuel + 1, .opt sub :: rest, s, i, st, caps =>
    match reMatch fuel (sub ++ rest) s i st caps with
    | some r => some r
    | none => reMatch fuel rest s i st caps
  | fuel + 1, .gopen n :: rest, s, i, st, caps => reMatch fuel rest s i ((n, i) :: st) caps
  | fuel + 1, .gclose n :: rest, s, i, st, caps =>
    match st with
    | (m, b) :: st1 => if m = n then reMatch fuel rest s i st1 ((n, b, i) :: caps) else none
    | [] => none

/-- Fuel that `reMatch` can never exhaust for the patterns of this file
    (see the comment on `reMatch`). -/
def reFuel (s : List Char) : Nat := (s.length + 1) * 64

/-- One match produced by the scanner: start offset, end offset, captures. -/
structure MatchInfo where
  mstart : Nat
  mend : Nat
  caps : List (Nat × Nat × Nat)
deriving DecidableEq

/-- With `re.MULTILINE`, a caret matches at offset `0` and immediately
    after each `\n`. -/
def isLineStart (orig : List Char) (pos : Nat) : Bool :=
  pos = 0 || orig.getD (pos - 1) ' ' = '\n'

/-- `finditer` for a caret-anchored pattern: attempt the pattern at every
    line start from `pos` on; after a match resume at its end (start + 1
    for an empty match, as in Python).  The position advances by at least
    one on every recursive call and scanning stops once the position
    passes the end of the buffer, so fuel `orig.length + 2` (supplied by
    `scanAll`) can never be exhausted. -/
def scanFrom (items : List RItem) (orig : List Char) : Nat → Nat → List MatchInfo
  | 0, _ => []
  | fuel + 1, pos =>
    if orig.length + 1 ≤ pos then []
    else if isLineStart orig pos then
      match reMatch (reFuel (orig.drop pos)) items (orig.drop pos) pos [] [] with
      | some (e, caps) =>
        if e ≤ pos then ⟨pos, e, caps⟩ :: scanFrom items orig fuel (pos + 1)
        else ⟨pos, e, caps⟩ :: scanFrom items orig fuel e
      | none => scanFrom items orig fuel (pos + 1)
    else scanFrom items orig fuel (pos + 1)

/-- All matches of a caret-anchored pattern in a buffer. -/
def scanAll (items : List RItem) (orig : List Char) : List MatchInfo :=
  scanFrom items orig (orig.length + 2) 0

/-- `match.group(n)`: the captured text of group `n`, `none` when the
    group did not participate in the match. -/
def capOf (orig : List Char) (caps : List (Nat × Nat × Nat)) (n : Nat) : Option (List Char) :=
  match caps.find? (fun c => c.1 = n) with
  | some (_, b, e) => some ((orig.drop b).take (e - b))
  | none => none

/-!  The four compiled patterns of the source file. -/

/-- Compiled form of the function pattern
    `^\s*(\w[\w\s\*&:<>,]*)\s+(\w+)\s*\(([^)]*)\)\s*(const)?\s*\x7b?`. -/
def functionItems : List RItem :=
  [ .star isPySpace,
    .gopen 1, .cls isWordChar, .star isTypeChar, .gclose 1,
    .cls isPySpace, .star isPySpace,
    .gopen 2, .cls isWordChar, .star isWordChar, .gclose 2,
    .star isPySpace,
    .lit '(',
    .gopen 3, .star (fun c => c ≠ ')'), .gclose 3,
    .lit ')',
    .star isPySpace,
    .opt [ .gopen 4, .lit 'c', .lit 'o', .lit 'n', .lit 's', .lit 't', .gclose 4 ],
    .star isPySpace,
    .opt [ .lit '\x7b' ] ]

/-- Compiled form of the variable pattern
    `^\s*(\w[\w\s\*&:<>,]*)\s+(\w+)\s*(=\s*[^;]+)?\s*;`. -/
def variableItems : List RItem :=
  [ .star isPySpace,
    .gopen 1, .cls isWordChar, .star isTypeChar, .gclose 1,
    .cls isPySpace, .star isPySpace,
    .gopen 2, .cls isWordChar, .star isWordChar, .gclose 2,
    .star isPySpace,
    .opt [ .gopen 3, .lit '=', .star isPySpace,
           .cls (fun c => c ≠ ';'), .star (fun c => c ≠ ';'), .gclose 3 ],
    .star isPySpace,
    .lit ';' ]

/-- Compiled form of the struct pattern `^\s*struct\s+(\w+)`.  There is no
    alternative for the keyword `class` anywhere in the source. -/
def structItems : List RItem :=
  [ .star isPySpace, .lit 's', .lit 't', .lit 'r', .lit 'u', .lit 'c', .lit 't',
    .cls isPySpace, .star isPySpace,
    .gopen 1, .cls isWordChar, .star isWordChar, .gclose 1 ]

/-- Compiled form of the array-shape pattern `.*\[\s*\d*\s*\]` used by
    `detect_variable_type` (applied with `re.match`, i.e. anchored at
    offset `0`, with `.` not matching a newline). -/
def arrayItems : List RItem :=
  [ .star (fun c => c ≠ '\n'), .lit '[', .star isPySpace, .star Char.isDigit,
    .star isPySpace, .lit ']' ]

/-!  Classification, comment generation, suppression and the passes,
mirrored from the source definitions of the same names. -/

/-- The `VariableType` enumeration of the source. -/
inductive VariableType where
  | CONSTANT
  | POINTER_OR_REFERENCE
  | ARRAY
  | VARIABLE
deriving DecidableEq

/-- `detect_variable_type`: substring test for `const`, then `*`/`&`, then
    the array-bracket shape, else the default case. -/
def detect_variable_type (declaration : List Char) : VariableType :=
  if containsSub declaration "const".data then .CONSTANT
  else if declaration.contains '*' || declaration.contains '&' then .POINTER_OR_REFERENCE
  else if (reMatch (reFuel declaration) arrayItems declaration 0 [] []).isSome then .ARRAY
  else .VARIABLE

/-- `FUNCTION_TEMPLATE.format(...)`: the literal template text with the
    four placeholders substituted. -/
def functionTemplate (brief detailed params ret : List Char) : List Char :=
  "\n// StateDiagramRef: Instruction TODO\n/**\n * @brief ".data ++ brief ++
  "\n *\n * ".data ++ detailed ++
  "\n *\n * @param[in] ".data ++ params ++
  "\n * @return ".data ++ ret ++
  "\n */\n".data

/-- `VARIABLE_TEMPLATE.format(...)`. -/
def variableTemplate (brief detailed : List Char) : List Char :=
  "\n// StateDiagramNaming: Variable Definition TODO\n/**\n * @brief ".data ++ brief ++
  "\n *\n * ".data ++ detailed ++
  "\n */\n".data

/-- `CONSTANT_TEMPLATE.format(...)`. -/
def constantTemplate (constant_name : List Char) : List Char :=
  "\n// StateDiagramNaming: Constant Definition TODO\n/**\n * @brief Constant representing ".data ++
  constant_name ++
  ".\n *\n * Detailed description of the constant ".data ++ constant_name ++
  ".\n */\n".data

/-- `STRUCT_TEMPLATE.format(...)`. -/
def structTemplate (struct_type struct_name : List Char) : List Char :=
  "\n// StateDiagramRef: Instruction TODO\n/**\n * @brief Brief description of the ".data ++
  struct_type ++ " ".data ++ struct_name ++
  ".\n *\n * Detailed description of the ".data ++
  struct_type ++ " ".data ++ struct_name ++
  ".\n */\n".data

/-- The parameter reduction of `generate_function_comment`, line
    `', '.join([param.split()[-1] for param in params.split(',') if param])`.
    A comma-separated piece that is non-empty but contains no token makes
    `param.split()[-1]` raise `IndexError`, modelled by `none`. -/
def formatted_params (params : List Char) : Option (List Char) :=
  (((splitSep ',' params []).filter (fun p => !p.isEmpty)).mapM
      (fun p => (splitWs p).getLast?)).map
    (List.intercalate ", ".data)

/-- The `return_description` branch of `generate_function_comment`. -/
def return_description (return_type function_name : List Char) : List Char :=
  if pstrip return_type ≠ "void".data then
    "Return value of ".data ++ function_name ++ ".".data
  else "No return value.".data

/-- `generate_function_comment`; `none` models the `IndexError` escaping
    from the parameter reduction. -/
def generate_function_comment (return_type function_name params : List Char) :
    Option (List Char) :=
  match formatted_params params with
  | none => none
  | some fp =>
    some (functionTemplate
      ("Brief description of the function ".data ++ function_name ++ ".".data)
      ("Detailed description of the function ".data ++ function_name ++ ".".data)
      fp
      (return_description return_type function_name))

/-- `var_type.name.lower()` for the enumeration members. -/
def vtLowerName : VariableType → List Char
  | .CONSTANT => "constant".data
  | .POINTER_OR_REFERENCE => "pointer_or_reference".data
  | .ARRAY => "array".data
  | .VARIABLE => "variable".data

/-- `generate_variable_comment`. -/
def generate_variable_comment (var_type : VariableType) (variable_name : List Char) :
    List Char :=
  if var_type = .CONSTANT then constantTemplate variable_name
  else
    variableTemplate
      ("Brief description of the ".data ++ vtLowerName var_type ++ " ".data ++
        variable_name ++ ".".data)
      ("Detailed description of the ".data ++ vtLowerName var_type ++ " ".data ++
        variable_name ++ ".".data)

/-- `generate_struct_comment`: always uses the kind word `struct`. -/
def generate_struct_comment (struct_name : List Char) : List Char :=
  structTemplate "struct".data struct_name

/-- The backward scan of `is_preceded_by_comment`: iterate over
    `reversed(lines_before)`; `True` on a line containing the opener,
    stop with `False` on a line containing the closer.  Note that the scan
    starts at the last line itself. -/
def blockScan : List (List Char) → Bool
  | [] => false
  | l :: rest =>
    if containsSub l "/*".data then true
    else if containsSub l "*/".data then false
    else blockScan rest

/-- `is_preceded_by_comment(content, start_index)`: only
    `content[:start_index]` is ever inspected. -/
def is_preceded_by_comment (content : List Char) (start_index : Nat) : Bool :=
  let lines_before := splitlines (pstrip (content.take start_index))
  match lines_before.getLast? with
  | none => false
  | some last =>
    let previous_line := pstrip last
    if "//".data.isPrefixOf previous_line then true
    else if containsSub previous_line "*/".data then blockScan lines_before.reverse
    else false

/-- The mutation loop shared by the variable and struct passes:
    `for match in reversed(matches)`, skip when suppressed, otherwise
    splice the generated text in front of the match's start offset.
    The list argument is the reversed (descending-start) match list. -/
def applyRev (gen : MatchInfo → List Char) : List MatchInfo → List Char → List Char
  | [], c => c
  | m :: rest, c =>
    if is_preceded_by_comment c m.mstart then applyRev gen rest c
    else applyRev gen rest (c.take m.mstart ++ gen m ++ c.drop m.mstart)

/-- The mutation loop of the function pass, whose comment generation can
    fail (`IndexError`): a failure aborts the whole pass. -/
def applyRevM (gen : MatchInfo → Option (List Char)) :
    List MatchInfo → List Char → Option (List Char)
  | [], c => some c
  | m :: rest, c =>
    if is_preceded_by_comment c m.mstart then applyRevM gen rest c
    else
      match gen m with
      | none => none
      | some t => applyRevM gen rest (c.take m.mstart ++ t ++ c.drop m.mstart)

/-- `add_doxygen_to_functions`.  Captured fields are read from the buffer
    the scan ran on, as `match.groups()` does. -/
def add_doxygen_to_functions (content : List Char) : Option (List Char) :=
  applyRevM
    (fun m =>
      generate_function_comment
        ((capOf content m.caps 1).getD [])
        ((capOf content m.caps 2).getD [])
        ((capOf content m.caps 3).getD []))
    (scanAll functionItems content).reverse content

/-- `add_doxygen_to_variables`. -/
def add_doxygen_to_variables (content : List Char) : List Char :=
  applyRev
    (fun m =>
      generate_variable_comment
        (detect_variable_type ((capOf content m.caps 1).getD []))
        ((capOf content m.caps 2).getD []))
    (scanAll variableItems content).reverse content

/-- `add_doxygen_to_structs`. -/
def add_doxygen_to_structs (content : List Char) : List Char :=
  applyRev
    (fun m => generate_struct_comment ((capOf content m.caps 1).getD []))
    (scanAll structItems content).reverse content

/-- The per-file transform of `add_doxygen_to_file`, I/O stripped: the
    three category passes in their fixed order.  `none` models an
    exception escaping to the caller. -/
def transformContent (content : List Char) : Option (List Char) :=
  (add_doxygen_to_functions content).map
    (fun c1 => add_doxygen_to_structs (add_doxygen_to_variables c1))

/-!  Definitions written from the specification's words, for comparison
with the source-derived definitions above. -/

/-- Modelled from the spec, backward scan of §4.2: over the lines strictly
    before the closing line, suppress on a line containing the opener,
    stop without suppressing on a line containing another closer. -/
def specBackScan : List (List Char) → Bool
  | [] => false
  | l :: rest =>
    if containsSub l "/*".data then true
    else if containsSub l "*/".data then false
    else specBackScan rest

/-- Modelled from the spec, §4.2 Documentation Suppressor: take the
    non-empty line immediately preceding the match (trimmed); suppress if
    it starts with a single-line comment marker; otherwise, if it contains
    a block-comment closer, scan backward through the earlier lines
    looking for an opener, suppressing if one is found before another
    closer; no preceding non-empty line means no suppression. -/
def specSuppressorVerdict (content : List Char) (start_index : Nat) : Bool :=
  let lines_before := splitlines (pstrip (content.take start_index))
  match lines_before.getLast? with
  | none => false
  | some last =>
    let previous_line := pstrip last
    if "//".data.isPrefixOf previous_line then true
    else if containsSub previous_line "*/".data then
      specBackScan lines_before.dropLast.reverse
    else false

/-- Written from the spec's words for the parameter reduction (§4.4):
    split on commas, drop empty pieces, keep the last whitespace-delimited
    token of each remaining piece, join with a comma and a space. -/
def specParamReduction (params : List Char) : List Char :=
  List.intercalate ", ".data
    (((splitSep ',' params []).filter (fun p => !p.isEmpty)).map
      (fun p => (splitWs p).getLastD []))

/-- Spec-side view of one category pass (§4.5 Mutation Engine): the
    original buffer split only at the insertion offsets, with every
    generated text placed immediately before the content its match
    targeted, and nothing else changed.  The pair list is in strictly
    descending offset order. -/
def withInsertedDesc (c : List Char) : List (Nat × List Char) → List Char
  | [] => c
  | (i, t) :: rest => withInsertedDesc (c.take i) rest ++ t ++ c.drop i

/-!  Concrete buffers used by the counterexamples and witnesses. -/

/-- One undocumented function declaration, per the spec's first
    end-to-end scenario. -/
def c1Input : List Char := "int add(int a, int b) \x7b\n".data

/-- The comment block the first run inserts above `c1Input`. -/
def c1Comment : List Char :=
  "\n// StateDiagramRef: Instruction TODO\n/**\n * @brief Brief description of the function add.\n *\n * Detailed description of the function add.\n *\n * @param[in] a, b\n * @return Return value of add.\n */\n".data

/-- A declaration directly below the closing line of a multi-line block
    comment. -/
def c2Buf : List Char := "/* a\nb\n*/\nint x;\n".data

/-- A variable declaration whose match spans two lines: the gap between
    the type tokens and the identifier is a newline, which the pattern's
    whitespace class accepts. -/
def c6Buf : List Char := "int\nx;".data

/-!  Helper lemmas shared by the claim theorems. -/

/-- Splicing text in at offset `i` leaves the first `j` characters
    unchanged whenever `j ≤ i ≤` the buffer length. -/
theorem take_splice (c t : List Char) (i j : Nat) (hji : j ≤ i) (hic : i ≤ c.length) :
    (c.take i ++ t ++ c.drop i).take j = c.take j := by
  have hlen : j ≤ (c.take i).length := by
    simp only [List.length_take]
    omega
  rw [List.append_assoc, List.take_append_of_le_length hlen, List.take_take]
  rw [Nat.min_eq_left hji]

/-- The suppressor reads only the prefix of the buffer before the match
    offset. -/
theorem ipbc_take_eq (c1 c2 : List Char) (j : Nat) (h : c1.take j = c2.take j) :
    is_preceded_by_comment c1 j = is_preceded_by_comment c2 j := by
  unfold is_preceded_by_comment
  rw [h]

/-- `withInsertedDesc` never touches an appended tail lying beyond all
    insertion offsets. -/
theorem withInsertedDesc_append (x y : List Char) (pairs : List (Nat × List Char))
    (hb : ∀ p ∈ pairs, p.1 ≤ x.length) :
    withInsertedDesc (x ++ y) pairs = withInsertedDesc x pairs ++ y := by
  cases pairs with
  | nil => rfl
  | cons p rest =>
    obtain ⟨i, t⟩ := p
    have hi : i ≤ x.length := hb (i, t) (by simp)
    simp only [withInsertedDesc]
    rw [List.take_append_of_le_length hi, List.drop_append_of_le_length hi]
    simp [List.append_assoc]

/-- Every match listed by the scanner starts at a line start: the
    scanner only attempts the (caret-anchored) pattern at line starts. -/
theorem scanFrom_mem_linestart (items : List RItem) (orig : List Char) :
    ∀ (fuel pos : Nat) (m : MatchInfo), m ∈ scanFrom items orig fuel pos →
      isLineStart orig m.mstart = true := by
  intro fuel
  induction fuel with
  | zero =>
    intro pos m hm
    simp [scanFrom] at hm
  | succ f ih =>
    intro pos m hm
    by_cases h1 : orig.length + 1 ≤ pos
    · simp [scanFrom, h1] at hm
    · by_cases h2 : isLineStart orig pos
      · cases hre : reMatch (reFuel (orig.drop pos)) items (orig.drop pos) pos [] [] with
        | none =>
          simp only [scanFrom, if_neg h1, h2, if_true] at hm
          rw [hre] at hm
          exact ih _ m hm
        | some r =>
          obtain ⟨e, caps⟩ := r
          simp only [scanFrom, if_neg h1, h2, if_true, hre] at hm
          by_cases h3 : e ≤ pos
          · simp only [if_pos h3, List.mem_cons] at hm
            rcases hm with heq | hmem
            · subst heq
              exact h2
            · exact ih _ m hmem
          · simp only [if_neg h3, List.mem_cons] at hm
            rcases hm with heq | hmem
            · subst heq
              exact h2
            · exact ih _ m hmem
      · simp only [scanFrom, if_neg h1] at hm
        rw [if_neg (by simp [h2])] at hm
        exact ih _ m hm


theorem wordChar_not_space (c : Char) (h : isWordChar c = true) : isPySpace c = false := by
  cases hs : isPySpace c with
  | false => rfl
  | true =>
    exfalso
    simp only [isPySpace, Bool.or_eq_true, decide_eq_true_eq] at hs
    rcases hs with ((((h1 | h1) | h1) | h1) | h1) | h1 <;> (subst h1; exact absurd h (by decide))

theorem wordChar_ne_newline (c : Char) (h : isWordChar c = true) : c ≠ '\n' := by
  intro heq
  subst heq
  exact absurd h (by decide)

theorem reMatch_lit {c : Char} {rest : List RItem} {t : List Char} {i : Nat}
    {st : List (Nat × Nat)} {caps : List (Nat × Nat × Nat)} (f : Nat) :
    reMatch (f + 1) (.lit c :: rest) (c :: t) i st caps = reMatch f rest t (i + 1) st caps := by
  simp [reMatch]

theorem reMatch_cls {p : Char → Bool} {rest : List RItem} {c1 : Char} {t : List Char}
    {i : Nat} {st : List (Nat × Nat)} {caps : List (Nat × Nat × Nat)} (f : Nat)
    (h : p c1 = true) :
    reMatch (f + 1) (.cls p :: rest) (c1 :: t) i st caps = reMatch f rest t (i + 1) st caps := by
  simp [reMatch, h]

theorem reMatch_star_skip {p : Char → Bool} {rest : List RItem} {c1 : Char} {t : List Char}
    {i : Nat} {st : List (Nat × Nat)} {caps : List (Nat × Nat × Nat)} (f : Nat)
    (h : p c1 = false) :
    reMatch (f + 1) (.star p :: rest) (c1 :: t) i st caps = reMatch f rest (c1 :: t) i st caps := by
  simp [reMatch, h]

theorem reMatch_star_nil {p : Char → Bool} {rest : List RItem} {i : Nat}
    {st : List (Nat × Nat)} {caps : List (Nat × Nat × Nat)} (f : Nat) :
    reMatch (f + 1) (.star p :: rest) [] i st caps = reMatch f rest [] i st caps := by
  simp [reMatch]

theorem reMatch_gopen {n : Nat} {rest : List RItem} {s : List Char} {i : Nat}
    {st : List (Nat × Nat)} {caps : List (Nat × Nat × Nat)} (f : Nat) :
    reMatch (f + 1) (.gopen n :: rest) s i st caps = reMatch f rest s i ((n, i) :: st) caps := by
  simp [reMatch]

theorem reMatch_gclose {n : Nat} {rest : List RItem} {s : List Char} {i b : Nat}
    {st : List (Nat × Nat)} {caps : List (Nat × Nat × Nat)} (f : Nat) :
    reMatch (f + 1) (.gclose n :: rest) s i ((n, b) :: st) caps
      = reMatch f rest s i st ((n, b, i) :: caps) := by
  simp [reMatch]

theorem reMatch_star_word_gclose (p : Char → Bool) (n : Nat) :
    ∀ (w : List Char) (f : Nat) (rest2 : List Char) (i b : Nat)
      (st : List (Nat × Nat)) (caps : List (Nat × Nat × Nat)),
      (∀ c ∈ w, p c = true) →
      (∀ c, rest2.head? = some c → p c = false) →
      w.length + 3 ≤ f →
      reMatch f [.star p, .gclose n] (w ++ rest2) i ((n, b) :: st) caps
        = some (i + w.length, (n, b, i + w.length) :: caps) := by
  intro w
  induction w with
  | nil =>
    intro f rest2 i b st caps hw hstop hf
    obtain ⟨g, rfl⟩ : ∃ g, f = g + 3 := ⟨f - 3, by omega⟩
    cases rest2 with
    | nil =>
      rw [List.nil_append, reMatch_star_nil, reMatch_gclose]
      simp [reMatch]
    | cons c t =>
      have hc : p c = false := hstop c rfl
      rw [List.nil_append, reMatch_star_skip _ hc, reMatch_gclose]
      simp [reMatch]
  | cons a w2 ih =>
    intro f rest2 i b st caps hw hstop hf
    obtain ⟨g, rfl⟩ : ∃ g, f = g + 1 := ⟨f - 1, by omega⟩
    have ha : p a = true := hw a (by simp)
    have hin : reMatch g [.star p, .gclose n] (w2 ++ rest2) (i + 1) ((n, b) :: st) caps
        = some ((i + 1) + w2.length, (n, b, (i + 1) + w2.length) :: caps) :=
      ih g rest2 (i + 1) b st caps (fun c hc => hw c (by simp [hc])) hstop
        (by simp only [List.length_cons] at hf; omega)
    have harr : (i + 1) + w2.length = i + (a :: w2).length := by
      simp only [List.length_cons]
      omega
    rw [List.cons_append]
    simp only [reMatch, ha, if_true]
    rw [hin]
    rw [harr]

theorem reMatch_struct_match (w rest2 : List Char) (i f : Nat)
    (hne : w ≠ []) (hw : ∀ c ∈ w, isWordChar c = true)
    (hstop : ∀ c, rest2.head? = some c → isWordChar c = false)
    (hf : w.length + 13 ≤ f) :
    reMatch f structItems ("struct ".data ++ w ++ rest2) i [] []
      = some (i + 7 + w.length, [(1, i + 7, i + 7 + w.length)]) := by
  obtain ⟨a, w2, rfl⟩ : ∃ a w2, w = a :: w2 := by
    cases w with
    | nil => exact absurd rfl hne
    | cons a w2 => exact ⟨a, w2, rfl⟩
  obtain ⟨g, rfl⟩ : ∃ g, f = g + 11 := ⟨f - 11, by omega⟩
  have ha : isWordChar a = true := hw a (by simp)
  have hasp : isPySpace a = false := wordChar_not_space a ha
  show reMatch (g + 11) structItems
      ('s' :: 't' :: 'r' :: 'u' :: 'c' :: 't' :: ' ' :: ((a :: w2) ++ rest2)) i [] [] = _
  rw [show structItems = RItem.star isPySpace :: RItem.lit 's' :: RItem.lit 't' ::
      RItem.lit 'r' :: RItem.lit 'u' :: RItem.lit 'c' :: RItem.lit 't' ::
      RItem.cls isPySpace :: RItem.star isPySpace :: RItem.gopen 1 ::
      RItem.cls isWordChar :: [RItem.star isWordChar, RItem.gclose 1] from rfl]
  rw [reMatch_star_skip _ (by decide), reMatch_lit, reMatch_lit, reMatch_lit, reMatch_lit,
    reMatch_lit, reMatch_lit, reMatch_cls _ (by decide), List.cons_append,
    reMatch_star_skip _ hasp, reMatch_gopen, reMatch_cls _ ha]
  have hlen : List.length w2 + 3 ≤ g := by
    simp only [List.length_cons] at hf
    omega
  rw [reMatch_star_word_gclose isWordChar 1 w2 g rest2 (i + 8) (i + 7) [] []
    (fun c hc => hw c (by simp [hc])) hstop hlen]
  have harr : (i + 8) + w2.length = i + 7 + (a :: w2).length := by
    simp only [List.length_cons]
    omega
  rw [harr]

theorem reMatch_struct_nil (i f : Nat) (hf : 2 ≤ f) :
    reMatch f structItems [] i [] [] = none := by
  obtain ⟨g, rfl⟩ : ∃ g, f = g + 2 := ⟨f - 2, by omega⟩
  rw [show structItems = RItem.star isPySpace :: RItem.lit 's' :: RItem.lit 't' ::
      RItem.lit 'r' :: RItem.lit 'u' :: RItem.lit 'c' :: RItem.lit 't' ::
      RItem.cls isPySpace :: RItem.star isPySpace :: RItem.gopen 1 ::
      RItem.cls isWordChar :: [RItem.star isWordChar, RItem.gclose 1] from rfl]
  rw [reMatch_star_nil]
  simp [reMatch]

theorem reMatch_struct_not_s (c0 : Char) (t : List Char) (i f : Nat) (hf : 2 ≤ f)
    (h1 : isPySpace c0 = false) (h2 : ¬c0 = 's') :
    reMatch f structItems (c0 :: t) i [] [] = none := by
  obtain ⟨g, rfl⟩ : ∃ g, f = g + 2 := ⟨f - 2, by omega⟩
  rw [show structItems = RItem.star isPySpace :: RItem.lit 's' :: RItem.lit 't' ::
      RItem.lit 'r' :: RItem.lit 'u' :: RItem.lit 'c' :: RItem.lit 't' ::
      RItem.cls isPySpace :: RItem.star isPySpace :: RItem.gopen 1 ::
      RItem.cls isWordChar :: [RItem.star isWordChar, RItem.gclose 1] from rfl]
  rw [reMatch_star_skip _ h1]
  simp [reMatch, h2]

theorem scanFrom_no_match (items : List RItem) (orig : List Char) :
    ∀ (fuel pos : Nat),
      (∀ q, pos ≤ q → isLineStart orig q = true →
        reMatch (reFuel (orig.drop q)) items (orig.drop q) q [] [] = none) →
      scanFrom items orig fuel pos = [] := by
  intro fuel
  induction fuel with
  | zero => intro pos _; rfl
  | succ f ih =>
    intro pos h
    by_cases h1 : orig.length + 1 ≤ pos
    · simp [scanFrom, h1]
    · by_cases h2 : isLineStart orig pos
      · have hnone := h pos (Nat.le_refl _) h2
        simp only [scanFrom, if_neg h1, h2, if_true, hnone]
        exact ih (pos + 1) (fun q hq => h q (by omega))
      · simp only [scanFrom, if_neg h1]
        rw [if_neg (by simp [h2])]
        exact ih (pos + 1) (fun q hq => h q (by omega))

theorem scanFrom_step (items : List RItem) (orig : List Char) (f pos e : Nat)
    (caps : List (Nat × Nat × Nat))
    (h1 : ¬orig.length + 1 ≤ pos) (h2 : isLineStart orig pos = true)
    (hre : reMatch (reFuel (orig.drop pos)) items (orig.drop pos) pos [] [] = some (e, caps))
    (h3 : ¬e ≤ pos) :
    scanFrom items orig (f + 1) pos = ⟨pos, e, caps⟩ :: scanFrom items orig f e := by
  simp only [scanFrom, if_neg h1, h2, if_true, hre]
  rw [if_neg h3]

theorem getD_append_left (A B : List Char) (n : Nat) (d : Char) (h : n < A.length) :
    (A ++ B).getD n d = A.getD n d := by
  simp [List.getD_eq_getElem?_getD, List.getElem?_append_left h]

theorem getD_append_right (A B : List Char) (n : Nat) (d : Char) (h : A.length ≤ n) :
    (A ++ B).getD n d = B.getD (n - A.length) d := by
  simp [List.getD_eq_getElem?_getD, List.getElem?_append_right h]

theorem getD_mem (l : List Char) (n : Nat) (d : Char) (h : n < l.length) :
    l.getD n d ∈ l := by
  rw [List.getD_eq_getElem?_getD, List.getElem?_eq_getElem h]
  exact List.getElem_mem h


theorem scanAll_struct_line (w : List Char) (hne : w ≠ [])
    (hw : ∀ c ∈ w, isWordChar c = true) :
    scanAll structItems ("struct ".data ++ w ++ " \x7b\n".data)
      = [⟨0, 7 + w.length, [(1, 7, 7 + w.length)]⟩] := by
  have hwpos : 0 < w.length := List.length_pos.mpr hne
  have h7 : ("struct ".data : List Char).length = 7 := rfl
  have h3 : (" \x7b\n".data : List Char).length = 3 := rfl
  have hlen : ("struct ".data ++ w ++ " \x7b\n".data : List Char).length = w.length + 10 := by
    simp only [List.length_append, h7, h3]
    omega
  have hstop : ∀ c, ((" \x7b\n".data : List Char)).head? = some c → isWordChar c = false := by
    intro c hc
    have h1 : (some ' ' : Option Char) = some c :=
      (show ((" \x7b\n".data : List Char)).head? = some ' ' from rfl).symm.trans hc
    obtain rfl := Option.some.inj h1
    decide
  have hre : reMatch (reFuel (("struct ".data ++ w ++ " \x7b\n".data : List Char).drop 0))
      structItems (("struct ".data ++ w ++ " \x7b\n".data : List Char).drop 0) 0 [] []
      = some (7 + w.length, [(1, 7, 7 + w.length)]) := by
    rw [List.drop_zero]
    have := reMatch_struct_match w " \x7b\n".data 0
      (reFuel ("struct ".data ++ w ++ " \x7b\n".data)) hne hw hstop
      (by simp only [reFuel, hlen]; omega)
    simpa using this
  have hfuel : ("struct ".data ++ w ++ " \x7b\n".data : List Char).length + 2
      = (("struct ".data ++ w ++ " \x7b\n".data : List Char).length + 1) + 1 := rfl
  rw [scanAll, hfuel,
    scanFrom_step structItems _ _ 0 (7 + w.length) [(1, 7, 7 + w.length)]
      (by omega) (by simp [isLineStart]) hre (by omega)]
  have hempty : scanFrom structItems ("struct ".data ++ w ++ " \x7b\n".data)
      (("struct ".data ++ w ++ " \x7b\n".data : List Char).length + 1) (7 + w.length) = [] := by
    apply scanFrom_no_match
    intro q hq hls
    by_cases hqlen : ("struct ".data ++ w ++ " \x7b\n".data : List Char).length ≤ q
    · rw [List.drop_eq_nil_of_le hqlen]
      exact reMatch_struct_nil q _ (by simp [reFuel])
    · exfalso
      push_neg at hqlen
      have hq0 : q ≠ 0 := by omega
      have hnl : ("struct ".data ++ w ++ " \x7b\n".data : List Char).getD (q - 1) ' ' = '\n' := by
        simp only [isLineStart, Bool.or_eq_true, decide_eq_true_eq] at hls
        rcases hls with h0 | h1
        · exact absurd h0 hq0
        · exact h1
      have hAlen : (("struct ".data ++ w : List Char)).length = 7 + w.length := by
        simp only [List.length_append, h7]
      have hcases : q - 1 = w.length + 6 ∨ q - 1 = w.length + 7 ∨ q - 1 = w.length + 8 := by
        rw [hlen] at hqlen
        omega
      rcases hcases with hc | hc | hc
      · rw [hc, List.append_assoc,
          getD_append_right _ _ _ _ (by rw [h7]; omega)] at hnl
        rw [h7, show w.length + 6 - 7 = w.length - 1 from by omega,
          getD_append_left _ _ _ _ (by omega)] at hnl
        have hmem := getD_mem w (w.length - 1) ' ' (by omega)
        rw [hnl] at hmem
        exact absurd (hw '\n' hmem) (by decide)
      · rw [hc, getD_append_right _ _ _ _ (by rw [hAlen]; omega)] at hnl
        rw [hAlen, show w.length + 7 - (7 + w.length) = 0 from by omega] at hnl
        exact absurd hnl (by decide)
      · rw [hc, getD_append_right _ _ _ _ (by rw [hAlen]; omega)] at hnl
        rw [hAlen, show w.length + 8 - (7 + w.length) = 1 from by omega] at hnl
        exact absurd hnl (by decide)
  rw [hempty]

theorem scanAll_class_line (w : List Char)
    (hw : ∀ c ∈ w, isWordChar c = true) :
    scanAll structItems ("class ".data ++ w ++ " \x7b\n".data) = [] := by
  have h6 : ("class ".data : List Char).length = 6 := rfl
  have h3 : (" \x7b\n".data : List Char).length = 3 := rfl
  have hlen : ("class ".data ++ w ++ " \x7b\n".data : List Char).length = w.length + 9 := by
    simp only [List.length_append, h6, h3]
    omega
  apply scanFrom_no_match
  intro q hq hls
  by_cases hqlen : ("class ".data ++ w ++ " \x7b\n".data : List Char).length ≤ q
  · rw [List.drop_eq_nil_of_le hqlen]
    exact reMatch_struct_nil q _ (by simp [reFuel])
  · push_neg at hqlen
    by_cases hq0 : q = 0
    · subst hq0
      rw [List.drop_zero]
      have hshape : ("class ".data ++ w ++ " \x7b\n".data : List Char)
          = 'c' :: ("lass ".data ++ w ++ " \x7b\n".data) := rfl
      rw [hshape]
      exact reMatch_struct_not_s 'c' _ 0 _ (by simp only [reFuel]; omega) (by decide) (by decide)
    · exfalso
      have hnl : ("class ".data ++ w ++ " \x7b\n".data : List Char).getD (q - 1) ' ' = '\n' := by
        simp only [isLineStart, Bool.or_eq_true, decide_eq_true_eq] at hls
        rcases hls with h0 | h1
        · exact absurd h0 hq0
        · exact h1
      have hAlen : (("class ".data ++ w : List Char)).length = 6 + w.length := by
        simp only [List.length_append, h6]
      rw [hlen] at hqlen
      by_cases hsmall : q - 1 < 6
      · rw [List.append_assoc, getD_append_left _ _ _ _ (by rw [h6]; omega)] at hnl
        have hc : q - 1 = 0 ∨ q - 1 = 1 ∨ q - 1 = 2 ∨ q - 1 = 3 ∨ q - 1 = 4 ∨ q - 1 = 5 := by
          omega
        rcases hc with hc | hc | hc | hc | hc | hc <;>
          (rw [hc] at hnl; exact absurd hnl (by decide))
      · by_cases hwreg : q - 1 < 6 + w.length
        · rw [List.append_assoc, getD_append_right _ _ _ _ (by rw [h6]; omega)] at hnl
          rw [h6, getD_append_left _ _ _ _ (by omega)] at hnl
          have hmem := getD_mem w (q - 1 - 6) ' ' (by omega)
          rw [hnl] at hmem
          exact absurd (hw '\n' hmem) (by decide)
        · have hc : q - 1 = w.length + 6 ∨ q - 1 = w.length + 7 := by omega
          rcases hc with hc | hc
          · rw [hc, getD_append_right _ _ _ _ (by rw [hAlen]; omega)] at hnl
            rw [hAlen, show w.length + 6 - (6 + w.length) = 0 from by omega] at hnl
            exact absurd hnl (by decide)
          · rw [hc, getD_append_right _ _ _ _ (by rw [hAlen]; omega)] at hnl
            rw [hAlen, show w.length + 7 - (6 + w.length) = 1 from by omega] at hnl
            exact absurd hnl (by decide)

/-!  Claim theorems. -/

set_option maxRecDepth 1000000 in
/-- C1 (code bug): the transform is not idempotent.  The first run on an
    undocumented declaration inserts `c1Comment` above it; the second run
    on that output fails to recognize the inserted block comment — the
    preceding non-empty line is its closing line ` */`, yet the suppressor
    answers `false` — and so inserts the very same comment again. -/
theorem c1_second_run_duplicates_comment :
    transformContent c1Input = some (c1Comment ++ c1Input) ∧
    transformContent (c1Comment ++ c1Input) =
      some (c1Comment ++ c1Comment ++ c1Input) ∧
    is_preceded_by_comment (c1Comment ++ c1Input) c1Comment.length = false ∧
    c1Comment ≠ [] := by
  refine ⟨?_, ?_, ?_, ?_⟩
  · decide
  · decide
  · decide
  · decide

/-- C2 (code bug): in `/* a`, `b`, `*/`, `int x;` the line preceding the
    declaration is the closing line of a multi-line block comment whose
    opener appears two lines earlier, so the spec's suppressor algorithm
    (`specSuppressorVerdict`) suppresses; but `is_preceded_by_comment`
    returns `false`, because its backward scan starts at the closing line
    itself and stops there on that line's own closer. -/
theorem c2_multiline_block_comment_not_suppressed :
    is_preceded_by_comment c2Buf 10 = false ∧
    specSuppressorVerdict c2Buf 10 = true := by decide

/-- C3 counterexample: a line beginning with the keyword `class` followed
    by an identifier receives no annotation from the struct/class pass —
    the pass returns the buffer unchanged and the struct pattern produces
    no match at all. -/
theorem c3_class_line_gets_no_comment :
    add_doxygen_to_structs "class Foo \x7b\n".data = "class Foo \x7b\n".data ∧
    scanAll structItems "class Foo \x7b\n".data = [] := by decide

/-- C3 amended: for every nonempty identifier of word characters, the
    struct/class pass inserts above `struct <ident> \x7b` the comment
    naming the kind `struct` and that identifier, while `class <ident> \x7b`
    produces no match at all and is returned unchanged: the compiled
    pattern knows only the keyword `struct`. -/
theorem c3_struct_only_matching (w : List Char) (hne : w ≠ [])
    (hw : ∀ c ∈ w, isWordChar c = true) :
    add_doxygen_to_structs ("struct ".data ++ w ++ " \x7b\n".data)
      = generate_struct_comment w ++ ("struct ".data ++ w ++ " \x7b\n".data) ∧
    add_doxygen_to_structs ("class ".data ++ w ++ " \x7b\n".data)
      = "class ".data ++ w ++ " \x7b\n".data := by
  constructor
  · unfold add_doxygen_to_structs
    rw [scanAll_struct_line w hne hw]
    have hipbc : is_preceded_by_comment ("struct ".data ++ w ++ " \x7b\n".data) 0 = false := rfl
    simp only [List.reverse_singleton, applyRev, hipbc, Bool.false_eq_true, if_false,
      List.take_zero, List.drop_zero, List.nil_append]
    have hdrop : ("struct ".data ++ w ++ " \x7b\n".data : List Char).drop 7
        = w ++ " \x7b\n".data := by
      rw [List.append_assoc]
      exact List.drop_left' rfl
    have hcap : capOf ("struct ".data ++ w ++ " \x7b\n".data) [(1, 7, 7 + w.length)] 1
        = some w := by
      have h0 : capOf ("struct ".data ++ w ++ " \x7b\n".data) [(1, 7, 7 + w.length)] 1
          = some ((("struct ".data ++ w ++ " \x7b\n".data : List Char).drop 7).take
              (7 + w.length - 7)) := rfl
      rw [h0, show 7 + w.length - 7 = w.length from by omega, hdrop, List.take_left' rfl]
    rw [hcap]
    rfl
  · unfold add_doxygen_to_structs
    rw [scanAll_class_line w hw]
    rfl

/-- C3 amended witness: the identifier `Point`. -/
theorem c3_amended_witness :
    ("Point".data : List Char) ≠ [] ∧
    add_doxygen_to_structs ("struct ".data ++ "Point".data ++ " \x7b\n".data)
      = generate_struct_comment "Point".data
        ++ ("struct ".data ++ "Point".data ++ " \x7b\n".data) ∧
    add_doxygen_to_structs ("class ".data ++ "Point".data ++ " \x7b\n".data)
      = "class ".data ++ "Point".data ++ " \x7b\n".data :=
  ⟨by decide,
   (c3_struct_only_matching "Point".data (by decide) (by decide)).1,
   (c3_struct_only_matching "Point".data (by decide) (by decide)).2⟩

/-- C4 (code bug): on the buffer `int f(int a, ) \x7b` the per-file
    transform does not return a buffer: the parameter text `int a, ` has a
    whitespace-only comma piece, `param.split()[-1]` raises `IndexError`
    inside `generate_function_comment`, and the exception escapes the
    transform (modelled by `none`), contradicting the spec's rule that
    only read or write failures surface to the caller. -/
theorem c4_transform_can_raise :
    transformContent "int f(int a, ) \x7b\n".data = none ∧
    generate_function_comment "int".data "f".data "int a, ".data = none := by
  decide

/-- C5: one category pass, handed its matches in strictly descending
    start order (the reversed scanner output) with starts within the
    buffer, equals the spec's mutation engine: the original buffer with
    every surviving match's generated text inserted immediately before
    the content the match targeted in the pre-mutation buffer, nothing
    else changed; survival (suppression) is decided against the
    pre-mutation buffer. -/
theorem c5_pass_is_descending_splice
    (gen : MatchInfo → List Char) (c : List Char) (l : List MatchInfo)
    (hdesc : List.Pairwise (fun a b => b.mstart < a.mstart) l)
    (hbound : ∀ m ∈ l, m.mstart ≤ c.length) :
    applyRev gen l c =
      withInsertedDesc c
        ((l.filter (fun m => !is_preceded_by_comment c m.mstart)).map
          (fun m => (m.mstart, gen m))) := by
  induction l generalizing c with
  | nil => rfl
  | cons m rest ih =>
    have hdp := List.pairwise_cons.mp hdesc
    have hlt : ∀ x ∈ rest, x.mstart < m.mstart := hdp.1
    have hmb : m.mstart ≤ c.length := hbound m (by simp)
    by_cases hsup : is_preceded_by_comment c m.mstart
    · have lhs : applyRev gen (m :: rest) c = applyRev gen rest c := by
        simp [applyRev, hsup]
      rw [lhs, ih c hdp.2 (fun x hx => hbound x (List.mem_cons_of_mem m hx))]
      have hfc : (m :: rest).filter (fun x => !is_preceded_by_comment c x.mstart) =
          rest.filter (fun x => !is_preceded_by_comment c x.mstart) := by
        simp [List.filter_cons, hsup]
      rw [hfc]
    · have lhs : applyRev gen (m :: rest) c =
          applyRev gen rest (c.take m.mstart ++ gen m ++ c.drop m.mstart) := by
        simp [applyRev, hsup]
      have hpre : ∀ x ∈ rest,
          (c.take m.mstart ++ gen m ++ c.drop m.mstart).take x.mstart = c.take x.mstart :=
        fun x hx => take_splice c (gen m) m.mstart x.mstart (le_of_lt (hlt x hx)) hmb
      have hb2 : ∀ x ∈ rest,
          x.mstart ≤ (c.take m.mstart ++ gen m ++ c.drop m.mstart).length := by
        intro x hx
        have hgrow : c.length ≤ (c.take m.mstart ++ gen m ++ c.drop m.mstart).length := by
          simp only [List.length_append, List.length_take, List.length_drop]
          omega
        exact le_trans (hbound x (List.mem_cons_of_mem m hx)) hgrow
      rw [lhs, ih (c.take m.mstart ++ gen m ++ c.drop m.mstart) hdp.2 hb2]
      have hfilt : rest.filter
            (fun x => !is_preceded_by_comment
              (c.take m.mstart ++ gen m ++ c.drop m.mstart) x.mstart) =
          rest.filter (fun x => !is_preceded_by_comment c x.mstart) := by
        apply List.filter_congr
        intro x hx
        rw [ipbc_take_eq _ c x.mstart (hpre x hx)]
      rw [hfilt]
      have hpairsb : ∀ p ∈ (rest.filter
            (fun x => !is_preceded_by_comment c x.mstart)).map
              (fun x => (x.mstart, gen x)),
          p.1 ≤ (c.take m.mstart).length := by
        intro p hp
        obtain ⟨x, hx, hpx⟩ := List.mem_map.mp hp
        have hxr : x ∈ rest := (List.mem_filter.mp hx).1
        have hxm : x.mstart < m.mstart := hlt x hxr
        have hpx1 : p.1 = x.mstart := by rw [← hpx]
        rw [hpx1]
        simp only [List.length_take]
        omega
      have hsplit : c.take m.mstart ++ gen m ++ c.drop m.mstart =
          c.take m.mstart ++ (gen m ++ c.drop m.mstart) := by
        simp [List.append_assoc]
      rw [hsplit, withInsertedDesc_append _ _ _ hpairsb]
      have hfc : (m :: rest).filter (fun x => !is_preceded_by_comment c x.mstart) =
          m :: rest.filter (fun x => !is_preceded_by_comment c x.mstart) := by
        simp [List.filter_cons, hsup]
      rw [hfc]
      simp [withInsertedDesc, List.append_assoc]

/-- C5 witness: two descending synthetic matches on a two-line buffer. -/
theorem c5_witness :
    applyRev (fun _ => "// X\n".data)
        [⟨7, 13, []⟩, ⟨0, 6, []⟩] "int a;\nint b;\n".data =
      withInsertedDesc "int a;\nint b;\n".data
        ((([⟨7, 13, []⟩, ⟨0, 6, []⟩] : List MatchInfo).filter
            (fun m => !is_preceded_by_comment "int a;\nint b;\n".data m.mstart)).map
          (fun m => (m.mstart, "// X\n".data))) :=
  c5_pass_is_descending_splice (fun _ => "// X\n".data) "int a;\nint b;\n".data
    [⟨7, 13, []⟩, ⟨0, 6, []⟩] (by decide) (by decide)

/-- C6 counterexample: on `int`, newline, `x;` the variable pattern
    produces exactly one candidate span, from offset 0 to offset 6, and
    the matched text contains a newline character — the span does not lie
    within a single line. -/
theorem c6_variable_span_crosses_a_line :
    (scanAll variableItems c6Buf).map (fun m => (m.mstart, m.mend)) = [(0, 6)] ∧
    ((c6Buf.drop 0).take (6 - 0)).contains '\n' = true := by decide

/-- C6 amended: variable matches are line-anchored only at their start —
    every candidate the variable pattern produces begins at the start of
    a line (offset 0 or immediately after a newline); the span itself may
    cross line boundaries, since the pattern's whitespace classes accept
    the newline character. -/
theorem c6_variable_match_starts_at_line_start (orig : List Char) (m : MatchInfo)
    (h : m ∈ scanAll variableItems orig) : isLineStart orig m.mstart = true :=
  scanFrom_mem_linestart variableItems orig (orig.length + 2) 0 m h

/-- C6 amended witness: the two-line match of `c6Buf` starts at offset
    0, a line start. -/
theorem c6_amended_witness :
    (⟨0, 6, [(2, 4, 5), (1, 0, 3)]⟩ : MatchInfo) ∈ scanAll variableItems c6Buf ∧
    isLineStart c6Buf 0 = true :=
  ⟨by decide,
   c6_variable_match_starts_at_line_start c6Buf ⟨0, 6, [(2, 4, 5), (1, 0, 3)]⟩ (by decide)⟩

/-- C7: the classifier's outputs on the five specified declared-type
    texts, exhibiting the priority order const over pointer/reference
    over array over plain (the `const` array classifies as Constant,
    not Array). -/
theorem c7_classifier_priority :
    detect_variable_type "const int x = 5;".data = VariableType.CONSTANT ∧
    detect_variable_type "int* ptr;".data = VariableType.POINTER_OR_REFERENCE ∧
    detect_variable_type "int arr[10];".data = VariableType.ARRAY ∧
    detect_variable_type "int count;".data = VariableType.VARIABLE ∧
    detect_variable_type "const int arr[3];".data = VariableType.CONSTANT ∧
    detect_variable_type "const int* p;".data = VariableType.CONSTANT ∧
    detect_variable_type "int* a[3];".data = VariableType.POINTER_OR_REFERENCE := by
  decide

/-- C8: the generated return description is the literal no-return
    phrasing exactly when the declared return type strips to `void`, and
    otherwise it is the phrasing naming the function. -/
theorem c8_return_description_branching (rt fn : List Char) :
    ((return_description rt fn = "No return value.".data ↔ pstrip rt = "void".data) ∧
      (pstrip rt ≠ "void".data →
        return_description rt fn = "Return value of ".data ++ fn ++ ".".data)) ∧
    ∀ ps out, generate_function_comment rt fn ps = some out →
      out = functionTemplate
        ("Brief description of the function ".data ++ fn ++ ".".data)
        ("Detailed description of the function ".data ++ fn ++ ".".data)
        ((formatted_params ps).getD [])
        (return_description rt fn) := by
  constructor
  · by_cases h : pstrip rt = "void".data
    · refine ⟨⟨fun _ => h, fun _ => ?_⟩, fun hc => absurd h hc⟩
      unfold return_description
      simp [h]
    · have hval : return_description rt fn = "Return value of ".data ++ fn ++ ".".data := by
        unfold return_description
        simp [h]
      refine ⟨⟨fun heq => ?_, fun hv => absurd hv h⟩, fun _ => hval⟩
      rw [hval] at heq
      have hh : some 'R' = some 'N' := congrArg List.head? heq
      exact absurd hh (by decide)
  · intro ps out h
    unfold generate_function_comment at h
    cases hfp : formatted_params ps with
    | none =>
      rw [hfp] at h
      exact absurd h (by simp)
    | some fp =>
      rw [hfp] at h
      simp only [Option.some.injEq] at h
      rw [← h]
      rfl

/-- C8 witness: a non-void return type takes the branch naming the
    function. -/
theorem c8_witness :
    pstrip "int".data ≠ "void".data ∧
    return_description "int".data "compute".data =
      "Return value of ".data ++ "compute".data ++ ".".data :=
  ⟨by decide, (c8_return_description_branching "int".data "compute".data).1.2 (by decide)⟩

/-- C9: whenever every non-empty comma piece of the parameter text has at
    least one whitespace-delimited token (so the reduction does not
    raise), the code's reduction agrees with the spec's reduction:
    comma-split, drop empty pieces, keep each piece's last token, join. -/
theorem c9_parameter_reduction (ps : List Char)
    (h : ∀ p ∈ splitSep ',' ps [], ¬p.isEmpty → splitWs p ≠ []) :
    formatted_params ps = some (specParamReduction ps) := by
  unfold formatted_params specParamReduction
  have key : ∀ (l : List (List Char)), (∀ p ∈ l, splitWs p ≠ []) →
      l.mapM (fun p => (splitWs p).getLast?) =
        some (l.map (fun p => (splitWs p).getLastD [])) := by
    intro l
    induction l with
    | nil => intro _; rfl
    | cons a t ih =>
      intro hl
      have ha : splitWs a ≠ [] := hl a (by simp)
      have hha : (splitWs a).getLast? = some ((splitWs a).getLastD []) := by
        have hs : (splitWs a).getLast?.isSome := List.getLast?_isSome.mpr ha
        obtain ⟨x, hx⟩ := Option.isSome_iff_exists.mp hs
        rw [hx, List.getLastD_eq_getLast?, hx]
        rfl
      have ht : t.mapM (fun p => (splitWs p).getLast?) =
          some (t.map (fun p => (splitWs p).getLastD [])) :=
        ih (fun p hp => hl p (by simp [hp]))
      rw [List.mapM_cons, hha, ht]
      rfl
  rw [key]
  · rfl
  · intro p hp
    have hmem : p ∈ splitSep ',' ps [] := (List.mem_filter.mp hp).1
    have hne : ¬p.isEmpty := by
      have := (List.mem_filter.mp hp).2
      simpa using this
    exact h p hmem hne

/-- C9 witness: the parameter text `int a, const char* name` reduces to
    the bare list `a, name`. -/
theorem c9_witness :
    formatted_params "int a, const char* name".data = some "a, name".data := by
  have h := c9_parameter_reduction "int a, const char* name".data (by decide)
  rw [h]
  decide

/-- C10: any declared-type text containing the character sequence `const`
    anywhere — also inside a longer token — classifies as Constant,
    before the pointer, reference or array checks are even reached. -/
theorem c10_substring_const_detection (d : List Char)
    (h : containsSub d "const".data = true) :
    detect_variable_type d = VariableType.CONSTANT := by
  unfold detect_variable_type
  simp [h]

/-- C10 witness: `my_constant_t* arr[3]` contains `const` only inside a
    longer identifier and also carries pointer and array markers, yet
    classifies as Constant. -/
theorem c10_witness :
    containsSub "my_constant_t* arr[3]".data "const".data = true ∧
    detect_variable_type "my_constant_t* arr[3]".data = VariableType.CONSTANT :=
  ⟨by decide, c10_substring_const_detection "my_constant_t* arr[3]".data (by decide)⟩

end Pydoxy
